import Mathlib

set_option maxRecDepth 1000000

/-!
Verification development for the yttext repository: a YouTube caption/transcript
extractor (Go).  The definitions below are a shallow embedding of the relevant
source functions:

* pkg/api (part_000): extractVideoID, extractCaptionsJSON, the caption-track
  selection loop of fetchTranscripts, parseTranscriptXML and the cue regex
  textRegex.
* pkg/formatters (part_001): SRTFormatter.Format, formatSRTTime,
  shouldStartNewParagraph, groupIntoParagraphs, wrapText.

Go strings are embedded as List Char.  Go float64 values are embedded as exact
rationals together with an explicit round-to-nearest-even function (round64)
that maps a rational to the nearest IEEE-754 binary64 value, applied after
every arithmetic operation exactly where the Go code performs a float64
operation.  A dedicated rational type Frac (normalized fraction with positive
denominator) is used so that every definition evaluates inside the kernel.
-/

namespace YT

/-- Fuel-driven Euclidean gcd; mirrors Nat.gcd but is structurally recursive so
that closed terms reduce by the kernel. -/
def natGcdF : Nat → Nat → Nat → Nat
  | 0, _, y => y
  | _ + 1, 0, y => y
  | f + 1, x + 1, y => natGcdF f (y % (x + 1)) (x + 1)

/-- Kernel-reducible gcd. -/
def natGcd (x y : Nat) : Nat := natGcdF (x + 1) x y

/-- Exact rational numbers with positive denominator.  Values produced by the
smart constructor mkFrac are in lowest terms, so structural equality of
constructed values coincides with value equality. -/
structure Frac where
  num : Int
  den : Nat
  dpos : 0 < den

instance : DecidableEq Frac := fun a b =>
  if h : a.num = b.num ∧ a.den = b.den then
    isTrue (by cases a; cases b; cases h.1; cases h.2; rfl)
  else
    isFalse (fun he => h (by cases he; exact ⟨rfl, rfl⟩))

/-- Normalizing constructor: sign moved to the numerator, fraction reduced.
A zero denominator (never produced by the embedded code paths) maps to 0.
The decidable side condition on the gcd keeps the positivity proof local; it
always holds, so the final fallback branch is unreachable. -/
def mkFrac (n d : Int) : Frac :=
  if hd : d = 0 then ⟨0, 1, Nat.one_pos⟩
  else
    let n' : Int := if d < 0 then -n else n
    let dn : Nat := d.natAbs
    let g : Nat := natGcd n'.natAbs dn
    have hdn : 0 < dn := Int.natAbs_pos.mpr hd
    if hg : 0 < g ∧ g ∣ dn then
      ⟨n' / (g : Int), dn / g, Nat.div_pos (Nat.le_of_dvd hdn hg.2) hg.1⟩
    else ⟨n', dn, hdn⟩

def Frac.ofInt (n : Int) : Frac := ⟨n, 1, Nat.one_pos⟩

def Frac.zero : Frac := Frac.ofInt 0

def Frac.add (a b : Frac) : Frac :=
  mkFrac (a.num * (b.den : Int) + b.num * (a.den : Int)) ((a.den : Int) * (b.den : Int))

def Frac.sub (a b : Frac) : Frac :=
  mkFrac (a.num * (b.den : Int) - b.num * (a.den : Int)) ((a.den : Int) * (b.den : Int))

def Frac.mul (a b : Frac) : Frac :=
  mkFrac (a.num * b.num) ((a.den : Int) * (b.den : Int))

def Frac.div (a b : Frac) : Frac :=
  mkFrac (a.num * (b.den : Int)) ((a.den : Int) * b.num)

def Frac.neg (a : Frac) : Frac := ⟨-a.num, a.den, a.dpos⟩

/-- Value-level order, by cross multiplication (denominators are positive). -/
def Frac.Le (a b : Frac) : Prop := a.num * (b.den : Int) ≤ b.num * (a.den : Int)

def Frac.Lt (a b : Frac) : Prop := a.num * (b.den : Int) < b.num * (a.den : Int)

instance (a b : Frac) : Decidable (Frac.Le a b) := by unfold Frac.Le; infer_instance

instance (a b : Frac) : Decidable (Frac.Lt a b) := by unfold Frac.Lt; infer_instance

instance : IsTrans Frac Frac.Le where
  trans := by
    intro a b c h1 h2
    unfold Frac.Le at *
    have hb : (0 : Int) < (b.den : Int) := Int.ofNat_pos.mpr b.dpos
    have ha : (0 : Int) ≤ (a.den : Int) := Int.ofNat_nonneg _
    have hc : (0 : Int) ≤ (c.den : Int) := Int.ofNat_nonneg _
    have h1' := mul_le_mul_of_nonneg_right h1 hc
    have h2' := mul_le_mul_of_nonneg_right h2 ha
    have hchain : a.num * (c.den : Int) * (b.den : Int) ≤ c.num * (a.den : Int) * (b.den : Int) := by
      nlinarith
    exact le_of_mul_le_mul_right hchain hb

/-- Floor of a fraction as an integer. -/
def Frac.floor (a : Frac) : Int := Int.fdiv a.num (a.den : Int)

/-- Go conversion float64 → int: truncation toward zero. -/
def Frac.trunc (a : Frac) : Int :=
  if a.num < 0 then -(Frac.floor (Frac.neg a)) else Frac.floor a

/-- Two to the power e for an integer exponent e, as an exact fraction. -/
def pow2 (e : Int) : Frac :=
  if 0 ≤ e then ⟨(2 ^ e.toNat : Nat), 1, Nat.one_pos⟩
  else ⟨1, 2 ^ (-e).toNat, Nat.pos_pow_of_pos _ (by decide)⟩

/-- Fuel-driven binary length (number of binary digits) of a natural number. -/
def nbitsF : Nat → Nat → Nat
  | 0, _ => 0
  | f + 1, m => if m = 0 then 0 else nbitsF f (m / 2) + 1

def nbits (m : Nat) : Nat := nbitsF m m

/-- Round a fraction to the nearest integer, ties to even. -/
def roundTiesEven (m : Frac) : Int :=
  let fl := Frac.floor m
  let r2 : Int := 2 * (m.num - fl * (m.den : Int))
  if r2 < (m.den : Int) then fl
  else if (m.den : Int) < r2 then fl + 1
  else if fl % 2 = 0 then fl else fl + 1

def Frac.abs (a : Frac) : Frac := if a.num < 0 then Frac.neg a else a

/-- Round an exact rational to the nearest IEEE-754 binary64 value
(round-to-nearest, ties-to-even), returned as an exact rational.  Subnormal
granularity (2^-1074) is modelled; overflow to infinity is not (all values in
the embedded computations are far below the overflow threshold). -/
def round64 (q : Frac) : Frac :=
  if q.num = 0 then Frac.zero
  else
    let a := Frac.abs q
    let e0 : Int := (nbits a.num.natAbs : Int) - (nbits a.den : Int)
    let e : Int := if Frac.Lt a (pow2 e0) then e0 - 1 else e0
    let g : Int := if e < -1022 then -1074 else e - 52
    let m : Frac := Frac.mul a (pow2 (-g))
    let r : Int := roundTiesEven m
    let mag : Frac := Frac.mul (Frac.ofInt r) (pow2 g)
    if q.num < 0 then Frac.neg mag else mag

/-- float64 addition: exact sum, rounded. -/
def fadd (a b : Frac) : Frac := round64 (Frac.add a b)

/-- float64 subtraction: exact difference, rounded. -/
def fsub (a b : Frac) : Frac := round64 (Frac.sub a b)

/-- float64 multiplication: exact product, rounded. -/
def fmul (a b : Frac) : Frac := round64 (Frac.mul a b)

/-- float64 division: exact quotient, rounded. -/
def fdiv (a b : Frac) : Frac := round64 (Frac.div a b)

/-- Go conversion int64 → float64 (exact for |n| < 2^53, rounded otherwise). -/
def fofInt (n : Int) : Frac := round64 (Frac.ofInt n)

/-! ### Go string primitives over List Char -/

/-- Go strings are byte strings; they are embedded as lists of characters.
All characters appearing in the claims are ASCII, where this is faithful. -/
abbrev Str := List Char

/-- strings.Contains: substring test (empty pattern is contained everywhere). -/
def containsSub : Str → Str → Bool
  | [], pat => pat.isEmpty
  | c :: t, pat => pat.isPrefixOf (c :: t) || containsSub t pat

/-- strings.Index: position of the first occurrence of a substring. -/
def indexOfSub : Str → Str → Option Nat
  | [], pat => if pat.isEmpty then some 0 else none
  | c :: t, pat =>
    if pat.isPrefixOf (c :: t) then some 0
    else (indexOfSub t pat).map (· + 1)

/-- Fuel-driven worker for strings.Split with a non-empty separator. -/
def splitSubF (pat : Str) : Nat → Str → List Str
  | 0, s => [s]
  | f + 1, s =>
    match indexOfSub s pat with
    | none => [s]
    | some i => s.take i :: splitSubF pat f (s.drop (i + pat.length))

/-- strings.Split.  The embedded code never splits on an empty separator
(Go would explode the string into characters); that case returns [s]. -/
def goSplitSub (s pat : Str) : List Str :=
  if pat.isEmpty then [s] else splitSubF pat (s.length + 1) s

/-- Fuel-driven worker for strings.ReplaceAll with a non-empty pattern. -/
def replaceAllF (pat rep : Str) : Nat → Str → Str
  | 0, s => s
  | f + 1, s =>
    match s with
    | [] => []
    | c :: t =>
      if pat.isPrefixOf (c :: t) then rep ++ replaceAllF pat rep f ((c :: t).drop pat.length)
      else c :: replaceAllF pat rep f t

/-- strings.ReplaceAll.  The embedded code never replaces an empty pattern
(Go would interleave the replacement between characters); that case is id. -/
def goReplaceAll (s pat rep : Str) : Str :=
  if pat.isEmpty then s else replaceAllF pat rep (s.length + 1) s

/-- unicode.IsSpace, restricted to the Latin-1 range (all whitespace reaching
the embedded code is ASCII; Go additionally treats U+0085 and U+00A0 as space). -/
def isSpaceGo (c : Char) : Bool :=
  c = ' ' || c = '\t' || c = '\n' || c = '\u000b' || c = '\u000c' || c = '\r' ||
    c = '\u0085' || c = ' '

/-- strings.TrimSpace. -/
def trimSpaceGo (s : Str) : Str :=
  ((s.dropWhile isSpaceGo).reverse.dropWhile isSpaceGo).reverse

/-- strings.HasSuffix. -/
def goHasSuffix (s suf : Str) : Bool := suf.isSuffixOf s

/-- strings.HasPrefix. -/
def goHasPre (s pre : Str) : Bool := pre.isPrefixOf s

/-- Fuel-driven worker for strings.Fields. -/
def goFieldsF : Nat → Str → List Str
  | 0, _ => []
  | f + 1, s =>
    match s with
    | [] => []
    | c :: t =>
      if isSpaceGo c then goFieldsF f t
      else (c :: t.takeWhile (fun x => !isSpaceGo x)) ::
        goFieldsF f (t.dropWhile (fun x => !isSpaceGo x))

/-- strings.Fields: maximal runs of non-whitespace characters. -/
def goFields (s : Str) : List Str := goFieldsF (s.length + 1) s

/-! ### Entity model (pkg/api Transcript) -/

/-- Transcript (part_000 lines 17-22): one caption segment.  Duration and the
two copies of the start time are float64 in Go, embedded as binary64 values
represented by exact fractions. -/
structure Transcript where
  text : Str
  duration : Frac
  offset : Frac
  startTime : Frac
deriving DecidableEq

/-! ### time.Duration accessors (Go standard library)

time.Duration is an int64 count of nanoseconds.  Seconds/Minutes/Hours are
embedded from the Go standard library sources, float64 steps rounded. -/

def nsPerSecond : Int := 1000000000
def nsPerMinute : Int := 60000000000
def nsPerHour : Int := 3600000000000

/-- Duration.Seconds(): float64(d / 1e9) + float64(d % 1e9) / 1e9. -/
def durSeconds (d : Int) : Frac :=
  fadd (fofInt (Int.tdiv d nsPerSecond))
    (fdiv (fofInt (Int.tmod d nsPerSecond)) (fofInt nsPerSecond))

/-- Duration.Minutes(). -/
def durMinutes (d : Int) : Frac :=
  fadd (fofInt (Int.tdiv d nsPerMinute))
    (fdiv (fofInt (Int.tmod d nsPerMinute)) (fofInt nsPerMinute))

/-- Duration.Hours(). -/
def durHours (d : Int) : Frac :=
  fadd (fofInt (Int.tdiv d nsPerHour))
    (fdiv (fofInt (Int.tmod d nsPerHour)) (fofInt nsPerHour))

/-- Decimal digits of a natural number (fmt %d), via Nat.toDigits. -/
def natDecimal (n : Nat) : Str := Nat.toDigits 10 n

/-- fmt %0Nd for an integer: zero-padded decimal (sign occupies width). -/
def padInt (width : Nat) (i : Int) : Str :=
  if i < 0 then
    '-' :: (let ds := natDecimal i.natAbs
            List.replicate (width - 1 - ds.length) '0' ++ ds)
  else
    let ds := natDecimal i.natAbs
    List.replicate (width - ds.length) '0' ++ ds

/-- formatSRTTime (part_001 lines 136-144): render a float64 second count as
an SRT timecode HH:MM:SS,mmm.  Every float64 step of the Go code is mirrored:
the nanosecond duration is time.Duration(seconds * float64(time.Second)),
hours/minutes/seconds truncate the Duration accessors, and the millisecond
field truncates (seconds - float64(int(seconds))) * 1000. -/
def formatSRTTime (seconds : Frac) : Str :=
  let d : Int := Frac.trunc (fmul seconds (fofInt nsPerSecond))
  let h : Int := Frac.trunc (durHours d)
  let m : Int := Int.tmod (Frac.trunc (durMinutes d)) 60
  let s : Int := Int.tmod (Frac.trunc (durSeconds d)) 60
  let ms : Int := Frac.trunc (fmul (fsub seconds (fofInt (Frac.trunc seconds))) (Frac.ofInt 1000))
  padInt 2 h ++ ':' :: padInt 2 m ++ ':' :: padInt 2 s ++ ',' :: padInt 3 ms

/-- One SRT block as written by SRTFormatter.Format for the segment at
zero-based position i: index i+1, start --> start+duration, text, blank line. -/
def srtBlock (i : Nat) (t : Transcript) : Str :=
  natDecimal (i + 1) ++ '\n' ::
    (formatSRTTime t.startTime ++ " --> ".toList ++
      formatSRTTime (fadd t.startTime t.duration) ++ '\n' ::
      (t.text ++ "\n\n".toList))

/-- Worker for SRTFormatter.Format: the loop with its running index. -/
def srtFormatAux (i : Nat) : List Transcript → Str
  | [] => []
  | t :: r => srtBlock i t ++ srtFormatAux (i + 1) r

/-- SRTFormatter.Format (part_001 lines 106-120). -/
def srtFormat (ts : List Transcript) : Str := srtFormatAux 0 ts

/-! ### Error model

One constructor per distinct error produced by the embedded code paths of
pkg/api, named after the Go error message. -/

inductive GoErr where
  /-- "invalid URL: %v" (url.Parse failed) -/
  | invalidURLErr
  /-- "could not extract video ID from URL: %s" -/
  | noVideoIDErr
  /-- "no caption tracks found" -/
  | noCaptionTracksErr
  /-- "no suitable caption track found" -/
  | noSuitableTrackErr
  /-- "failed to extract caption track URL" -/
  | trackURLErr
  /-- "too many requests" -/
  | tooManyRequestsErr
  /-- "video unavailable" -/
  | videoUnavailableErr
  /-- "transcripts disabled for this video" -/
  | captionsDisabledErr
  /-- "failed to extract captions JSON" -/
  | captionsJSONExtractErr
  /-- "failed to parse captions JSON: %v" -/
  | captionsJSONParseErr
  /-- "no transcript available for this video" -/
  | noTranscriptAvailableErr
  /-- "no transcript text found in XML" -/
  | noTranscriptTextErr
  /-- "failed to parse any transcript entries" -/
  | parseFailureErr
deriving DecidableEq

/-- The spec's abstract error kinds (spec.md section 7). -/
inductive SpecErrKind where
  | InvalidURL
  | FetchError
  | RateLimited
  | VideoUnavailable
  | CaptionsDisabled
  | NoTranscriptAvailable
  | NoSuitableTrack
  | ExtractionError
  | NoTranscriptText
  | ParseFailure
deriving DecidableEq

/-- Map each concrete Go error onto the spec's error kind (spec.md section 7:
both identifier-extraction failures are InvalidURL; the empty-track-list,
nil-selected-track and missing-baseURL failures are NoSuitableTrack per
section 4.3). -/
def errKind : GoErr → SpecErrKind
  | .invalidURLErr => .InvalidURL
  | .noVideoIDErr => .InvalidURL
  | .noCaptionTracksErr => .NoSuitableTrack
  | .noSuitableTrackErr => .NoSuitableTrack
  | .trackURLErr => .NoSuitableTrack
  | .tooManyRequestsErr => .RateLimited
  | .videoUnavailableErr => .VideoUnavailable
  | .captionsDisabledErr => .CaptionsDisabled
  | .captionsJSONExtractErr => .ExtractionError
  | .captionsJSONParseErr => .ExtractionError
  | .noTranscriptAvailableErr => .NoTranscriptAvailable
  | .noTranscriptTextErr => .NoTranscriptText
  | .parseFailureErr => .ParseFailure

instance {ε α : Type} [DecidableEq ε] [DecidableEq α] : DecidableEq (Except ε α) := fun a b =>
  match a, b with
  | .ok x, .ok y =>
    if h : x = y then isTrue (by rw [h]) else isFalse (fun he => by cases he; exact h rfl)
  | .error e, .error f =>
    if h : e = f then isTrue (by rw [h]) else isFalse (fun he => by cases he; exact h rfl)
  | .ok _, .error _ => isFalse (fun he => by cases he)
  | .error _, .ok _ => isFalse (fun he => by cases he)

/-! ### Cue matching (textRegex, part_000 line 14)

textRegex = <text start="([0-9.]+)" dur="([0-9.]+)".*?>(.*?)</text>

RE2 semantics on this pattern are deterministic: the character classes of the
two capture groups exclude the quote that must follow them, and the two lazy
gaps stop at the first '>' (resp. the first "</text>") reachable without
crossing a newline ('.' does not match '\n').  A position matches exactly when
the sequential scanner below succeeds; FindAllStringSubmatch takes the
leftmost match and resumes after its end. -/

/-- The character class [0-9.] of the regex. -/
def isDigitDot (c : Char) : Bool := c.isDigit || c = '.'

/-- Scan through the first occurrence of a stop character, failing on a
newline: the lazy gap .*?> of the regex.  Returns (consumed, rest-after-stop). -/
def scanThroughChar (stop : Char) : Str → Option (Str × Str)
  | [] => none
  | c :: t =>
    if c = stop then some ([], t)
    else if c = '\n' then none
    else (scanThroughChar stop t).map (fun p => (c :: p.1, p.2))

/-- Scan up to the first occurrence of a terminator substring, failing on a
newline: the lazy payload (.*?)</text> of the regex.  Returns
(consumed, rest-after-terminator). -/
def scanThroughSub (term : Str) : Str → Option (Str × Str)
  | [] => none
  | c :: t =>
    if term.isPrefixOf (c :: t) then some ([], (c :: t).drop term.length)
    else if c = '\n' then none
    else (scanThroughSub term t).map (fun p => (c :: p.1, p.2))

/-- One matched cue: the full matched span and the three capture groups. -/
structure CueMatch where
  span : Str
  startStr : Str
  durStr : Str
  payload : Str
deriving DecidableEq

def cueLit1 : Str := "<text start=\"".toList
def cueLit2 : Str := "\" dur=\"".toList
def cueLit3 : Str := "</text>".toList

/-- Consume an exact literal at the head of the input. -/
def expectLit (lit : Str) (s : Str) : Option Str :=
  if lit.isPrefixOf s then some (s.drop lit.length) else none

/-- Consume a non-empty maximal run of the class [0-9.]: the greedy groups
([0-9.]+) of the regex.  Since the character that must follow each group (a
quote) is outside the class, the maximal run is the only viable choice. -/
def takeNum (s : Str) : Option (Str × Str) :=
  let g := s.takeWhile isDigitDot
  if g.isEmpty then none else some (g, s.dropWhile isDigitDot)

/-- Try to match textRegex at the start of s: the literal head, the two
greedy numeric groups each followed by their closing quote, the lazy
attribute gap up to the first reachable tag close, and the lazy payload up to
the first reachable close tag.  Returns the match and the remainder of the
string after the match. -/
def matchCueAt (s : Str) : Option (CueMatch × Str) :=
  Option.bind (expectLit cueLit1 s) (fun s1 =>
  Option.bind (takeNum s1) (fun g1s2 =>
  Option.bind (expectLit cueLit2 g1s2.2) (fun s3 =>
  Option.bind (takeNum s3) (fun g2s4 =>
  Option.bind (expectLit ['"'] g2s4.2) (fun s5 =>
  Option.bind (scanThroughChar '>' s5) (fun gaps6 =>
  Option.bind (scanThroughSub cueLit3 gaps6.2) (fun pr =>
  some (⟨cueLit1 ++ g1s2.1 ++ cueLit2 ++ g2s4.1 ++ '"' ::
          (gaps6.1 ++ '>' :: (pr.1 ++ cueLit3)),
         g1s2.1, g2s4.1, pr.1⟩, pr.2))))))))

/-- Fuel-driven worker for FindAllStringSubmatch: leftmost match, resume after
the match end; otherwise advance one position. -/
def findAllCuesF : Nat → Str → List CueMatch
  | 0, _ => []
  | _ + 1, [] => []
  | f + 1, c :: t =>
    (matchCueAt (c :: t)).elim (findAllCuesF f t)
      (fun p => p.1 :: findAllCuesF f p.2)

/-- textRegex.FindAllStringSubmatch(s, -1) (part_000 line 212). -/
def findAllCues (s : Str) : List CueMatch := findAllCuesF (s.length + 1) s

/-! ### strconv.ParseFloat and entity unescaping -/

/-- Numeric value of a decimal digit string. -/
def natOfDigits (s : Str) : Nat :=
  s.foldl (fun acc c => acc * 10 + (c.toNat - '0'.toNat)) 0

/-- strconv.ParseFloat on strings drawn from the regex class [0-9.]+: valid
iff there is at most one dot and at least one digit; the value is the decimal
value rounded to the nearest binary64 (Go parses correctly rounded).  Inputs
outside that class cannot reach this function. -/
def goParseFloat (s : Str) : Option Frac :=
  if s.isEmpty then none
  else if ¬ s.all isDigitDot then none
  else if 1 < s.count '.' then none
  else
    let digits := s.filter Char.isDigit
    if digits.isEmpty then none
    else
      let ipart := s.takeWhile (fun c => c ≠ '.')
      let fpart := (s.dropWhile (fun c => c ≠ '.')).drop 1
      some (round64 (mkFrac (natOfDigits (ipart ++ fpart)) ((10 : Int) ^ fpart.length)))

/-- The entity unescaping of parseTranscriptXML (part_000 lines 234-240):
five ReplaceAll calls in this exact order. -/
def unescapeText (t : Str) : Str :=
  let t1 := goReplaceAll t "&amp;".toList "&".toList
  let t2 := goReplaceAll t1 "&lt;".toList "<".toList
  let t3 := goReplaceAll t2 "&gt;".toList ">".toList
  let t4 := goReplaceAll t3 "&quot;".toList "\"".toList
  goReplaceAll t4 "&#39;".toList "'".toList

/-- Body of the per-match loop of parseTranscriptXML (part_000 lines 219-250):
parse start and duration (dropping the match on failure), unescape the text,
and fill Offset and StartTime with the same parsed start value. -/
def cueToTranscript (c : CueMatch) : Option Transcript :=
  match goParseFloat c.startStr with
  | none => none
  | some st =>
    match goParseFloat c.durStr with
    | none => none
    | some du => some ⟨unescapeText c.payload, du, st, st⟩

/-- The loop of parseTranscriptXML over all matches, with its continue.  The
len(match) < 4 guard of the Go code is omitted: FindAllStringSubmatch always
returns one entry per capture group plus the whole match (4 here). -/
def cueLoop : List CueMatch → List Transcript
  | [] => []
  | c :: r =>
    match cueToTranscript c with
    | none => cueLoop r
    | some t => t :: cueLoop r

/-- parseTranscriptXML (part_000 lines 210-257). -/
def parseTranscriptXML (xmlData : Str) : Except GoErr (List Transcript) :=
  let found := findAllCues xmlData
  if found.isEmpty then .error .noTranscriptTextErr
  else
    let transcripts := cueLoop found
    if transcripts.isEmpty then .error .parseFailureErr
    else .ok transcripts

/-! ### Dynamic JSON values (Go interface values produced by json.Unmarshal) -/

/-- Go interface{} values as decoded by encoding/json: null, bool, float64,
string, []interface{}, map[string]interface{} (embedded as a key/value list;
json.Unmarshal produces unique keys, lookup takes the first). -/
inductive GoJSON where
  | null
  | bool (b : Bool)
  | num (q : Frac)
  | str (s : Str)
  | arr (elems : List GoJSON)
  | obj (fields : List (Str × GoJSON))

/-- Map lookup m[k] on an embedded Go map. -/
def lookupKey : List (Str × GoJSON) → Str → Option GoJSON
  | [], _ => none
  | (k, v) :: r, key => if k = key then some v else lookupKey r key

/-! ### extractCaptionsJSON (part_000 lines 170-207)

The json.Unmarshal step is an external collaborator and is passed in as a
parameter (a function from the cleaned JSON fragment to an optional decoded
value; none embeds a Go unmarshal error). -/

def captionsMarker : Str := "\"captions\":".toList
def captchaMarker : Str := "class=\"g-recaptcha\"".toList
def playabilityMarker : Str := "\"playabilityStatus\":".toList
def videoDetailsMarker : Str := ",\"videoDetails".toList

def extractCaptionsJSON (parseJSON : Str → Option GoJSON) (html : Str) :
    Except GoErr (List (Str × GoJSON)) :=
  let parts := goSplitSub html captionsMarker
  if parts.length ≤ 1 then
    if containsSub html captchaMarker then .error .tooManyRequestsErr
    else if ¬ containsSub html playabilityMarker then .error .videoUnavailableErr
    else .error .captionsDisabledErr
  else
    match parts with
    | _ :: jsonPart :: _ =>
      match indexOfSub jsonPart videoDetailsMarker with
      | none => .error .captionsJSONExtractErr
      | some endIndex =>
        let jsonStr := jsonPart.take endIndex
        let jsonStr := goReplaceAll jsonStr "\n".toList []
        match parseJSON jsonStr with
        | none => .error .captionsJSONParseErr
        | some result =>
          match result with
          | .obj fields =>
            match lookupKey fields "playerCaptionsTracklistRenderer".toList with
            | some (.obj captionsJSON) =>
              match lookupKey captionsJSON "captionTracks".toList with
              | some _ => .ok captionsJSON
              | none => .error .noTranscriptAvailableErr
            | _ => .error .captionsDisabledErr
          | _ => .error .captionsDisabledErr
    | _ => .error .captionsJSONExtractErr

/-! ### Caption track selection (fetchTranscripts, part_000 lines 84-122) -/

/-- String value of a field of a track descriptor: the value asserted by a
Go type assertion m[key].(string), none when the entry is not a map or the
field is absent or not a string.  All match arms are written out because the
equation compiler handles wildcards over nested inductives poorly. -/
def trackField (key : Str) (t : GoJSON) : Option Str :=
  match t with
  | .obj m =>
    match lookupKey m key with
    | some (.str lc) => some lc
    | some .null => none
    | some (.bool _) => none
    | some (.num _) => none
    | some (.arr _) => none
    | some (.obj _) => none
    | none => none
  | .null => none
  | .bool _ => none
  | .num _ => none
  | .str _ => none
  | .arr _ => none

/-- Language code of a track descriptor: trackMap["languageCode"].(string)
of the loop body; none embeds both continue cases of the loop. -/
def trackLanguage (t : GoJSON) : Option Str := trackField "languageCode".toList t

/-- Base URL of a track descriptor: targetTrack["baseUrl"].(string). -/
def trackBaseURL (t : GoJSON) : Option Str := trackField "baseUrl".toList t

/-- The language-match loop (part_000 lines 94-109): entries that are not
maps or whose languageCode is not a string are skipped (continue), i.e. the
trackLanguage cases yielding none; the loop stops at the first exact match. -/
def findMatchingTrack (code : Str) : List GoJSON → Option GoJSON
  | [] => none
  | t :: r =>
    match trackLanguage t with
    | some lc => if lc = code then some t else findMatchingTrack code r
    | none => findMatchingTrack code r

/-- Coercion captionTracks[0].(map[string]interface) of line 112: the first
element when it is a map, nil otherwise. -/
def headMap : List GoJSON → Option GoJSON
  | [] => none
  | .obj m :: _ => some (.obj m)
  | .null :: _ => none
  | .bool _ :: _ => none
  | .num _ :: _ => none
  | .str _ :: _ => none
  | .arr _ :: _ => none

/-- The fallback of lines 111-117: the matched track if any, else the first
element coerced to a map (nil when the coercion fails). -/
def selectTarget (captionTracks : List GoJSON) (code : Str) : Option GoJSON :=
  match findMatchingTrack code captionTracks with
  | some t => some t
  | none => headMap captionTracks

/-- Lines 119-122: extract the baseUrl string of the selected track; a
missing or non-string baseUrl fails. -/
def extractTrackURL (t : GoJSON) : Except GoErr (GoJSON × Str) :=
  match trackBaseURL t with
  | some u => .ok (t, u)
  | none => .error .trackURLErr

/-- Track selection and baseUrl extraction (part_000 lines 84-122), given the
captionTracks list: empty list fails (line 86); empty language code defaults
to "en"; first exact languageCode match wins, else fall back to the first
element coerced to a map; a nil selection fails (line 116); a missing or
non-string baseUrl fails (line 121).  Returns the selected track and its
baseUrl. -/
def selectCaptionTrack (captionTracks : List GoJSON) (languageCode : Str) :
    Except GoErr (GoJSON × Str) :=
  if captionTracks.isEmpty then .error .noCaptionTracksErr
  else
    let code := if languageCode.isEmpty then "en".toList else languageCode
    match selectTarget captionTracks code with
    | none => .error .noSuitableTrackErr
    | some t => extractTrackURL t

/-! ### extractVideoID (part_000 lines 51-70) -/

/-- unicode.IsUpper consults Go's Unicode category tables, an external
collaborator of the formatter, so the paragraph heuristic takes the
uppercase predicate as a parameter (as extractCaptionsJSON takes the JSON
decoder): the theorems below hold for every predicate, the real Unicode
table included.  goIsUpperL1 is the restriction of unicode.IsUpper to the
Latin-1 range, used to evaluate the concrete examples: below U+0100 the
upper-case letters are exactly A-Z and U+00C0-U+00DE without the
multiplication sign U+00D7. -/
def goIsUpperL1 (c : Char) : Bool :=
  (65 ≤ c.toNat && c.toNat ≤ 90) ||
    (192 ≤ c.toNat && c.toNat ≤ 222 && c.toNat ≠ 215)

/-- shouldStartNewParagraph (part_001 lines 147-162); isUp stands for
unicode.IsUpper. -/
def shouldStartNewParagraph (isUp : Char → Bool) (prevText currText : Str) : Bool :=
  let endsWithPunctuation :=
    goHasSuffix (trimSpaceGo prevText) ".".toList ||
    goHasSuffix (trimSpaceGo prevText) "!".toList ||
    goHasSuffix (trimSpaceGo prevText) "?".toList
  let startsWithCapital :=
    decide (0 < currText.length) &&
      (match currText with
       | [] => false
       | c :: _ => isUp c)
  let containsAnnotation :=
    containsSub prevText "[".toList || containsSub currText "[".toList
  (endsWithPunctuation && startsWithCapital) || containsAnnotation

/-- The paragraph-join step of groupIntoParagraphs (lines 178-181): insert a
single space unless the accumulated paragraph already ends with one or the
incoming text already starts with one. -/
def joinSeg (cur txt : Str) : Str :=
  if goHasSuffix cur " ".toList = false ∧ goHasPre txt " ".toList = false then
    cur ++ ' ' :: txt
  else cur ++ txt

/-- Loop of groupIntoParagraphs, tracking the previous segment text and the
accumulated current paragraph. -/
def groupAux (isUp : Char → Bool) (cur : Str) (prev : Str) : List Transcript → List Str
  | [] => if 0 < cur.length then [cur] else []
  | t :: r =>
    if shouldStartNewParagraph isUp prev t.text then cur :: groupAux isUp t.text t.text r
    else groupAux isUp (joinSeg cur t.text) t.text r

/-- groupIntoParagraphs (part_001 lines 165-190); isUp stands for
unicode.IsUpper, as in shouldStartNewParagraph. -/
def groupIntoParagraphs (isUp : Char → Bool) : List Transcript → List Str
  | [] => []
  | t :: r => groupAux isUp t.text t.text r

/-- The greedy wrap loop of wrapText (lines 205-216). -/
def wrapLoop (lineLength : Int) (currentLine : Str) : List Str → Str
  | [] => currentLine
  | w :: ws =>
    if lineLength < (currentLine.length : Int) + 1 + (w.length : Int) then
      currentLine ++ '\n' :: wrapLoop lineLength w ws
    else wrapLoop lineLength (currentLine ++ ' ' :: w) ws

/-- wrapText (part_001 lines 193-219). -/
def wrapText (text : Str) (lineLength : Int) : Str :=
  if lineLength ≤ 0 then text
  else
    match goFields text with
    | [] => []
    | w :: ws => wrapLoop lineLength w ws

/-! ### Claim-side definitions

Definitions below this point are not embeddings of the source; they express
the quantified families of inputs and the spec-side policies that the claim
theorems compare against the embedded code. -/

/-- Track selection policy as worded by the claim: default the language code
to "en" when empty; the first track whose languageCode exactly equals the
requested code wins; otherwise the first element of the list is selected;
NoSuitableTrack exactly when the list is empty or the selected entry carries
no (string) baseURL field. -/
def selectTrackSpec (tracks : List GoJSON) (languageCode : Str) :
    Except SpecErrKind (GoJSON × Str) :=
  match tracks with
  | [] => .error .NoSuitableTrack
  | t0 :: _ =>
    let code := if languageCode.isEmpty then "en".toList else languageCode
    let selected := (tracks.find? (fun t => trackLanguage t == some code)).getD t0
    match trackBaseURL selected with
    | some u => .ok (selected, u)
    | none => .error .NoSuitableTrack

/-- Non-decreasing start times, the relation of the order invariant. -/
def leStart (a b : Transcript) : Prop := Frac.Le a.startTime b.startTime

instance : IsTrans Transcript leStart where
  trans := fun a b c h1 h2 =>
    IsTrans.trans a.startTime b.startTime c.startTime h1 h2

instance (a b : Transcript) : Decidable (leStart a b) := by unfold leStart; infer_instance

/-- No two adjacent whitespace characters, the normalization relation of the
word-wrap claim. -/
def noAdjacentSpace (a b : Char) : Prop := ¬(isSpaceGo a = true ∧ isSpaceGo b = true)

instance (a b : Char) : Decidable (noAdjacentSpace a b) := by
  unfold noAdjacentSpace; infer_instance

/-- A word produced by strings.Fields: non-empty and whitespace-free. -/
def wordOK (w : Str) : Prop := w ≠ [] ∧ ∀ c ∈ w, isSpaceGo c = false

/-- Invariant of the current line of the wrap loop: non-empty, internal
whitespace is single plain spaces, and no whitespace at either end. -/
def curOK (l : Str) : Prop :=
  l ≠ [] ∧ (∀ c ∈ l, isSpaceGo c = true → c = ' ') ∧
  List.Chain' noAdjacentSpace l ∧
  (∀ c, l.head? = some c → isSpaceGo c = false) ∧
  (∀ c, l.getLast? = some c → isSpaceGo c = false)

/-- Normalized wrap output: non-empty, every whitespace character is a single
space or line break, none adjacent, and no whitespace at either end. -/
def lineOK (l : Str) : Prop :=
  l ≠ [] ∧ (∀ c ∈ l, isSpaceGo c = true → c = ' ' ∨ c = '\n') ∧
  List.Chain' noAdjacentSpace l ∧
  (∀ c, l.head? = some c → isSpaceGo c = false) ∧
  (∀ c, l.getLast? = some c → isSpaceGo c = false)

/-! ### Helper lemmas -/

theorem containsSub_cons_false {c : Char} {t pat : Str}
    (h : containsSub (c :: t) pat = false) :
    pat.isPrefixOf (c :: t) = false ∧ containsSub t pat = false := by
  simp only [containsSub, Bool.or_eq_false_iff] at h
  exact h

theorem replaceAllF_id (pat rep : Str) :
    ∀ (f : Nat) (s : Str), containsSub s pat = false → replaceAllF pat rep f s = s := by
  intro f
  induction f with
  | zero => intro s _; rfl
  | succ f ih =>
    intro s hs
    match s with
    | [] => rfl
    | c :: t =>
      obtain ⟨h1, h2⟩ := containsSub_cons_false hs
      simp only [replaceAllF, h1, Bool.false_eq_true, if_false, ih t h2]

theorem goReplaceAll_id (s pat rep : Str) (h : containsSub s pat = false) :
    goReplaceAll s pat rep = s := by
  unfold goReplaceAll
  by_cases hp : pat.isEmpty
  · simp [hp]
  · simp only [hp, Bool.false_eq_true, if_false]
    exact replaceAllF_id pat rep (s.length + 1) s h

theorem indexOfSub_none {pat : Str} :
    ∀ {s : Str}, containsSub s pat = false → indexOfSub s pat = none := by
  intro s
  induction s with
  | nil =>
    intro h
    simp only [containsSub] at h
    simp [indexOfSub, h]
  | cons c t ih =>
    intro h
    obtain ⟨h1, h2⟩ := containsSub_cons_false h
    simp [indexOfSub, h1, ih h2]

theorem goSplitSub_no_occurrence (s pat : Str) (hne : pat.isEmpty = false)
    (h : containsSub s pat = false) : goSplitSub s pat = [s] := by
  unfold goSplitSub splitSubF
  simp [hne, indexOfSub_none h]

theorem cueLoop_eq_filterMap (l : List CueMatch) :
    cueLoop l = l.filterMap cueToTranscript := by
  induction l with
  | nil => rfl
  | cons c r ih =>
    simp only [cueLoop, List.filterMap_cons]
    match h : cueToTranscript c with
    | none => simp [h, ih]
    | some t => simp [h, ih]

theorem srtFormatAux_enumFrom (ts : List Transcript) :
    ∀ i : Nat, srtFormatAux i ts =
      ((ts.enumFrom i).map (fun p => srtBlock p.1 p.2)).flatten := by
  induction ts with
  | nil => intro i; rfl
  | cons t r ih =>
    intro i
    simp only [srtFormatAux, List.enumFrom, List.map_cons, List.flatten_cons, ih (i + 1)]

/-! ### Claim C1 (SRT formatting) -/

/-- C1 (corrected): the SRT formatter emits, for the segment at zero-based
position i, the block "i+1, newline, SRT start timecode, space-arrow-space,
SRT timecode of start+duration, newline, text, blank line", with blocks
concatenated in sequence order (so numbering starts at 1).  For the segment
with startSeconds 0.0 and durationSeconds 3.05 the emitted block is index 1
with time range 00:00:00,000 --> 00:00:03,049: the float64 nearest to 3.05 is
3.04999999999999982..., and the millisecond field truncates its fractional
part times 1000 (= 49.99999999999998), so the claimed 00:00:03,050 is not
produced. -/
theorem yt_c1_theorem :
    (∀ ts : List Transcript,
      srtFormat ts = ((ts.enum.map (fun p => srtBlock p.1 p.2)).flatten)) ∧
    srtFormat [⟨"Hello".toList, round64 (mkFrac 61 20), Frac.zero, Frac.zero⟩] =
      "1\n00:00:00,000 --> 00:00:03,049\nHello\n\n".toList := by
  constructor
  · intro ts
    exact srtFormatAux_enumFrom ts 0
  · decide

/-- C1 counterexample: for a segment with startSeconds 0.0 and
durationSeconds 3.05 (as a float64, i.e. the binary64 value nearest to 3.05)
the SRT formatter does not emit the claimed block with time range
00:00:00,000 --> 00:00:03,050. -/
theorem yt_c1_counterexample :
    srtFormat [⟨"Hello".toList, round64 (mkFrac 61 20), Frac.zero, Frac.zero⟩] ≠
      "1\n00:00:00,000 --> 00:00:03,050\nHello\n\n".toList := by decide

/-! ### Claim C4 (captions-marker absent discrimination) -/

/-- C4 (confirmed): when the captions marker "captions": is absent from the
page body, extractCaptionsJSON fails with RateLimited if the CAPTCHA marker
is present, else with VideoUnavailable if the playability marker is absent,
else with CaptionsDisabled — exactly this discrimination in exactly this
order, for every JSON decoder and every body. -/
theorem yt_c4_theorem :
    ∀ (parseJSON : Str → Option GoJSON) (html : Str),
    containsSub html captionsMarker = false →
    extractCaptionsJSON parseJSON html =
      .error (if containsSub html captchaMarker then .tooManyRequestsErr
              else if containsSub html playabilityMarker = false then .videoUnavailableErr
              else .captionsDisabledErr) ∧
    (extractCaptionsJSON parseJSON html).mapError errKind =
      .error (if containsSub html captchaMarker then .RateLimited
              else if containsSub html playabilityMarker = false then .VideoUnavailable
              else .CaptionsDisabled) := by
  intro parseJSON html h
  have hsplit : goSplitSub html captionsMarker = [html] :=
    goSplitSub_no_occurrence html captionsMarker (by decide) h
  have hmain : extractCaptionsJSON parseJSON html =
      .error (if containsSub html captchaMarker then .tooManyRequestsErr
              else if containsSub html playabilityMarker = false then .videoUnavailableErr
              else .captionsDisabledErr) := by
    unfold extractCaptionsJSON
    rw [hsplit]
    by_cases h1 : containsSub html captchaMarker = true
    · simp [h1]
    · by_cases h2 : containsSub html playabilityMarker = true
      · simp [h1, h2]
      · simp [h1, h2]
  refine ⟨hmain, ?_⟩
  rw [hmain]
  by_cases h1 : containsSub html captchaMarker = true
  · simp [h1, Except.mapError, errKind]
  · by_cases h2 : containsSub html playabilityMarker = true
    · simp [h1, h2, Except.mapError, errKind]
    · simp [h1, h2, Except.mapError, errKind]

/-- C4 witness: a body with none of the markers fails with VideoUnavailable. -/
theorem yt_c4_witness :
    extractCaptionsJSON (fun _ => none) "hello".toList = .error .videoUnavailableErr := by
  have h := yt_c4_theorem (fun _ => none) "hello".toList (by decide)
  exact (h.1).trans (by rfl)

/-! ### Claim C5 (entity unescaping) -/

/-- C5 (confirmed): the payload unescaping applies exactly the five
replacements amp, lt, gt, quot, apostrophe in that fixed order — a payload
containing the five entities is rendered with the corresponding literal
characters — and performs no other substitution: a payload containing none of
the five entity spellings is returned unchanged. -/
theorem yt_c5_theorem :
    unescapeText "&amp; &lt; &gt; &quot; &#39;".toList = "& < > \" '".toList ∧
    (∀ t : Str,
      containsSub t "&amp;".toList = false →
      containsSub t "&lt;".toList = false →
      containsSub t "&gt;".toList = false →
      containsSub t "&quot;".toList = false →
      containsSub t "&#39;".toList = false →
      unescapeText t = t) := by
  constructor
  · decide
  · intro t h1 h2 h3 h4 h5
    simp only [unescapeText]
    rw [goReplaceAll_id t _ _ h1, goReplaceAll_id t _ _ h2, goReplaceAll_id t _ _ h3,
      goReplaceAll_id t _ _ h4, goReplaceAll_id t _ _ h5]

/-- C5 witness: a payload with no entity spelling is unchanged. -/
theorem yt_c5_witness : unescapeText "plain text".toList = "plain text".toList :=
  yt_c5_theorem.2 "plain text".toList (by decide) (by decide) (by decide) (by decide)
    (by decide)

/-! ### Claim C6 (cue-parse error discrimination and silent drop) -/

/-- C6 (confirmed): a caption body with zero cue matches fails with
NoTranscriptText; a body whose matches all have unparsable numerics fails
with ParseFailure; otherwise the well-formed matches produce the segments (a
match with unparsable numerics is silently dropped), as witnessed concretely
by a body holding one cue with start "1.2.3" and one well-formed cue. -/
theorem yt_c6_theorem :
    (∀ xml : Str, findAllCues xml = [] →
      parseTranscriptXML xml = .error .noTranscriptTextErr ∧
      errKind .noTranscriptTextErr = .NoTranscriptText) ∧
    (∀ xml : Str, findAllCues xml ≠ [] →
      (findAllCues xml).filterMap cueToTranscript = [] →
      parseTranscriptXML xml = .error .parseFailureErr ∧
      errKind .parseFailureErr = .ParseFailure) ∧
    (∀ xml : Str, (findAllCues xml).filterMap cueToTranscript ≠ [] →
      parseTranscriptXML xml = .ok ((findAllCues xml).filterMap cueToTranscript)) ∧
    parseTranscriptXML
        "<text start=\"1.2.3\" dur=\"1\">x</text><text start=\"2.5\" dur=\"1\">ok</text>".toList =
      .ok [⟨"ok".toList, round64 (mkFrac 10 10), round64 (mkFrac 25 10), round64 (mkFrac 25 10)⟩] := by
  refine ⟨?_, ?_, ?_, by decide⟩
  · intro xml h
    refine ⟨?_, rfl⟩
    simp [parseTranscriptXML, h]
  · intro xml h1 h2
    refine ⟨?_, rfl⟩
    simp [parseTranscriptXML, cueLoop_eq_filterMap, List.isEmpty_iff, h1, h2]
  · intro xml h
    have hne : findAllCues xml ≠ [] := by
      intro hc
      apply h
      rw [hc]
      rfl
    simp [parseTranscriptXML, cueLoop_eq_filterMap, List.isEmpty_iff, hne, h]

/-! ### Claim C3 (track selection policy) -/

theorem findMatchingTrack_eq_find (code : Str) :
    ∀ l : List GoJSON,
      findMatchingTrack code l = l.find? (fun t => trackLanguage t == some code) := by
  intro l
  induction l with
  | nil => rfl
  | cons t r ih =>
    cases hT : trackLanguage t with
    | none => simp [findMatchingTrack, List.find?_cons, hT, ih]
    | some lc =>
      by_cases hc : lc = code
      · subst hc
        simp [findMatchingTrack, List.find?_cons, hT]
      · have hb : ((some lc : Option Str) == some code) = false := by simp [hc]
        simp [findMatchingTrack, List.find?_cons, hT, hc, hb, ih]

/-- C3 (confirmed): for every caption-track list and requested language code,
the selection embedded from fetchTranscripts agrees, up to the spec's error
kinds, with the claim's policy: default the code to "en" when empty; the
first track whose languageCode exactly equals the requested code wins,
otherwise the first element of a non-empty list is selected; the failure is
NoSuitableTrack exactly when the list is empty or the selected entry has no
string baseURL field. -/
theorem yt_c3_theorem :
    ∀ (tracks : List GoJSON) (languageCode : Str),
      (selectCaptionTrack tracks languageCode).mapError errKind =
        selectTrackSpec tracks languageCode := by
  intro tracks languageCode
  cases tracks with
  | nil => rfl
  | cons t0 rest =>
    have hmm := findMatchingTrack_eq_find
      (if languageCode.isEmpty then "en".toList else languageCode) (t0 :: rest)
    have hL0 : selectCaptionTrack (t0 :: rest) languageCode =
        (match selectTarget (t0 :: rest)
            (if languageCode.isEmpty then "en".toList else languageCode) with
         | none => .error .noSuitableTrackErr
         | some t => extractTrackURL t) := by
      simp only [selectCaptionTrack, List.isEmpty_cons, Bool.false_eq_true, if_false]
    cases hf : findMatchingTrack
        (if languageCode.isEmpty then "en".toList else languageCode) (t0 :: rest) with
    | some t =>
      have hfind : (t0 :: rest).find?
          (fun t => trackLanguage t ==
            some (if languageCode.isEmpty then "en".toList else languageCode)) = some t := by
        rw [← hmm, hf]
      have hT : selectTarget (t0 :: rest)
          (if languageCode.isEmpty then "en".toList else languageCode) = some t := by
        simp only [selectTarget]
        rw [hf]
      have hR : selectTrackSpec (t0 :: rest) languageCode =
          (match trackBaseURL t with
           | some u => (.ok (t, u) : Except SpecErrKind (GoJSON × Str))
           | none => .error .NoSuitableTrack) := by
        simp only [selectTrackSpec]
        rw [hfind, Option.getD_some]
      rw [hL0, hT, hR]
      cases hB : trackBaseURL t with
      | some u => simp [extractTrackURL, hB, Except.mapError]
      | none => simp [extractTrackURL, hB, Except.mapError, errKind]
    | none =>
      have hfind : (t0 :: rest).find?
          (fun t => trackLanguage t ==
            some (if languageCode.isEmpty then "en".toList else languageCode)) = none := by
        rw [← hmm, hf]
      have hT : selectTarget (t0 :: rest)
          (if languageCode.isEmpty then "en".toList else languageCode) =
          headMap (t0 :: rest) := by
        simp only [selectTarget]
        rw [hf]
      have hR : selectTrackSpec (t0 :: rest) languageCode =
          (match trackBaseURL t0 with
           | some u => (.ok (t0, u) : Except SpecErrKind (GoJSON × Str))
           | none => .error .NoSuitableTrack) := by
        simp only [selectTrackSpec]
        rw [hfind, Option.getD_none]
      rw [hL0, hT, hR]
      cases t0 with
      | obj m =>
        have hHead : headMap (GoJSON.obj m :: rest) = some (.obj m) := rfl
        rw [hHead]
        cases hB : trackBaseURL (GoJSON.obj m) with
        | some u => simp [extractTrackURL, hB, Except.mapError]
        | none => simp [extractTrackURL, hB, Except.mapError, errKind]
      | null => simp [headMap, trackBaseURL, trackField, Except.mapError, errKind]
      | bool b => simp [headMap, trackBaseURL, trackField, Except.mapError, errKind]
      | num q => simp [headMap, trackBaseURL, trackField, Except.mapError, errKind]
      | str s2 => simp [headMap, trackBaseURL, trackField, Except.mapError, errKind]
      | arr xs => simp [headMap, trackBaseURL, trackField, Except.mapError, errKind]

/-! ### Claim C7 (readable paragraph heuristic) -/

/-- C7 (confirmed): in the readable formatter — for every uppercase
predicate isUp, in particular Go's unicode.IsUpper table — a paragraph break
is inserted between adjacent segments exactly when the previous segment's
trimmed text ends in period, exclamation mark or question mark and the next
segment's text starts with a character satisfying isUp, or either text
contains an opening bracket; otherwise the two texts are joined into one
paragraph, inserting a single space unless either side already supplies one.
In particular (with the Latin-1 table) "Hello there." followed by "World is
big" breaks, and "Hello" followed by "there" merges with a single space. -/
theorem yt_c7_theorem :
    (∀ (isUp : Char → Bool) (t1 t2 : Transcript), t2.text ≠ [] →
      groupIntoParagraphs isUp [t1, t2] =
        if shouldStartNewParagraph isUp t1.text t2.text then [t1.text, t2.text]
        else [joinSeg t1.text t2.text]) ∧
    (∀ (isUp : Char → Bool) (a b : Str), shouldStartNewParagraph isUp a b = true ↔
      (((goHasSuffix (trimSpaceGo a) ".".toList = true ∨
         goHasSuffix (trimSpaceGo a) "!".toList = true ∨
         goHasSuffix (trimSpaceGo a) "?".toList = true) ∧
        (∃ c r, b = c :: r ∧ isUp c = true)) ∨
       (containsSub a "[".toList = true ∨ containsSub b "[".toList = true))) ∧
    (∀ a b : Str, joinSeg a b =
      a ++ (if goHasSuffix a " ".toList = false ∧ goHasPre b " ".toList = false
            then [' '] else []) ++ b) ∧
    groupIntoParagraphs goIsUpperL1
      [⟨"Hello there.".toList, Frac.zero, Frac.zero, Frac.zero⟩,
       ⟨"World is big".toList, Frac.zero, Frac.zero, Frac.zero⟩] =
      ["Hello there.".toList, "World is big".toList] ∧
    groupIntoParagraphs goIsUpperL1
      [⟨"Hello".toList, Frac.zero, Frac.zero, Frac.zero⟩,
       ⟨"there".toList, Frac.zero, Frac.zero, Frac.zero⟩] =
      ["Hello there".toList] := by
  refine ⟨?_, ?_, ?_, by decide, by decide⟩
  · intro isUp t1 t2 h2
    by_cases hs : shouldStartNewParagraph isUp t1.text t2.text = true
    · have h2len : 0 < t2.text.length := List.length_pos.mpr h2
      simp [groupIntoParagraphs, groupAux, hs, h2len]
    · have hj : joinSeg t1.text t2.text ≠ [] := by
        unfold joinSeg
        split
        · simp
        · rw [Ne, List.append_eq_nil]
          intro hc
          exact h2 hc.2
      have hjlen : 0 < (joinSeg t1.text t2.text).length := List.length_pos.mpr hj
      simp [groupIntoParagraphs, groupAux, hs, hjlen]
  · intro isUp a b
    unfold shouldStartNewParagraph
    simp only [Bool.or_eq_true, Bool.and_eq_true, decide_eq_true_iff]
    constructor
    · rintro (⟨hp, _, hcap⟩ | hbr)
      · left
        refine ⟨by tauto, ?_⟩
        cases b with
        | nil => simp at hcap
        | cons c r => exact ⟨c, r, rfl, hcap⟩
      · right
        exact hbr
    · rintro (⟨hp, c, r, hb, hcap⟩ | hbr)
      · left
        subst hb
        exact ⟨by tauto, by simp, hcap⟩
      · right
        exact hbr
  · intro a b
    unfold joinSeg
    by_cases hcond : goHasSuffix a " ".toList = false ∧ goHasPre b " ".toList = false
    · rw [if_pos hcond, if_pos hcond]
      simp
    · rw [if_neg hcond, if_neg hcond]
      simp

/-- C7 witness: the pair-level characterization, at the Latin-1 uppercase
table, applied to two concrete segments. -/
theorem yt_c7_witness :
    groupIntoParagraphs goIsUpperL1
      [⟨"Good.".toList, Frac.zero, Frac.zero, Frac.zero⟩,
       ⟨"Then".toList, Frac.zero, Frac.zero, Frac.zero⟩] =
      ["Good.".toList, "Then".toList] := by
  have h := yt_c7_theorem.1 goIsUpperL1 ⟨"Good.".toList, Frac.zero, Frac.zero, Frac.zero⟩
    ⟨"Then".toList, Frac.zero, Frac.zero, Frac.zero⟩ (by decide)
  exact h.trans (by decide)

/-! ### Claim C8 (ordering of parsed segments) -/

/-- C8 (corrected): the parser is order-preserving — the segments are exactly
the well-formed cue matches in body order, never sorted — so startSeconds is
non-decreasing (for all positions i ≤ j) exactly when the well-formed cues
appear in the body in non-decreasing start order, not for arbitrary bodies. -/
theorem yt_c8_theorem :
    ∀ (xml : Str) (segs : List Transcript),
      parseTranscriptXML xml = .ok segs →
      segs = (findAllCues xml).filterMap cueToTranscript ∧
      (List.Chain' leStart segs →
        ∀ i j : Fin segs.length, (i : Nat) ≤ (j : Nat) →
          leStart (segs.get i) (segs.get j)) := by
  intro xml segs h
  have hseg : segs = (findAllCues xml).filterMap cueToTranscript := by
    have hpx := h
    simp only [parseTranscriptXML] at hpx
    by_cases h1 : (findAllCues xml).isEmpty = true
    · rw [if_pos h1] at hpx
      simp at hpx
    · rw [if_neg h1] at hpx
      by_cases h2 : (cueLoop (findAllCues xml)).isEmpty = true
      · rw [if_pos h2] at hpx
        simp at hpx
      · rw [if_neg h2] at hpx
        rw [← cueLoop_eq_filterMap]
        exact (Except.ok.inj hpx).symm
  refine ⟨hseg, ?_⟩
  intro hch i j hij
  have hpw : List.Pairwise leStart segs := List.chain'_iff_pairwise.mp hch
  rcases Nat.lt_or_ge (i : Nat) (j : Nat) with hlt | hge
  · exact List.pairwise_iff_get.mp hpw i j hlt
  · have hij2 : (i : Nat) = (j : Nat) := Nat.le_antisymm hij hge
    have : i = j := Fin.ext hij2
    subst this
    exact le_refl _

/-- C8 counterexample: a body whose two well-formed cues carry start times
5.0 then 1.0 parses successfully into segments in that body order, so the
first segment's startSeconds exceeds the second's — sequence order is not
non-decreasing for arbitrary cue order in the source body. -/
theorem yt_c8_counterexample :
    parseTranscriptXML
        "<text start=\"5.0\" dur=\"1\">b</text><text start=\"1.0\" dur=\"1\">a</text>".toList =
      .ok [⟨"b".toList, round64 (mkFrac 1 1), round64 (mkFrac 50 10), round64 (mkFrac 50 10)⟩,
           ⟨"a".toList, round64 (mkFrac 1 1), round64 (mkFrac 10 10), round64 (mkFrac 10 10)⟩] ∧
    ¬ Frac.Le (round64 (mkFrac 50 10)) (round64 (mkFrac 10 10)) := by decide

/-- C8 witness: on a body whose cues are already in non-decreasing start
order, the parsed startSeconds are non-decreasing. -/
theorem yt_c8_witness :
    Frac.Le (round64 (mkFrac 10 10)) (round64 (mkFrac 50 10)) := by
  have h := yt_c8_theorem
      "<text start=\"1.0\" dur=\"1\">a</text><text start=\"5.0\" dur=\"1\">b</text>".toList
      [⟨"a".toList, round64 (mkFrac 1 1), round64 (mkFrac 10 10), round64 (mkFrac 10 10)⟩,
       ⟨"b".toList, round64 (mkFrac 1 1), round64 (mkFrac 50 10), round64 (mkFrac 50 10)⟩]
      (by decide)
  exact h.2 (List.chain'_cons.mpr ⟨by decide, List.chain'_singleton _⟩)
    ⟨0, by decide⟩ ⟨1, by decide⟩ (by decide)

/-! ### Claim C9 (multi-line cues never match) -/

theorem scanThroughChar_no_newline (stop : Char) :
    ∀ {s g r : Str}, scanThroughChar stop s = some (g, r) → ∀ x ∈ g, x ≠ '\n' := by
  intro s
  induction s with
  | nil => intro g r h; simp [scanThroughChar] at h
  | cons c t ih =>
    intro g r h
    rw [show scanThroughChar stop (c :: t) =
        (if c = stop then some ([], t)
         else if c = '\n' then none
         else (scanThroughChar stop t).map (fun p => (c :: p.1, p.2))) from rfl] at h
    by_cases hc : c = stop
    · rw [if_pos hc] at h
      cases h
      intro x hx
      simp at hx
    · rw [if_neg hc] at h
      by_cases hn : c = '\n'
      · rw [if_pos hn] at h
        cases h
      · rw [if_neg hn] at h
        cases hrec : scanThroughChar stop t with
        | none => rw [hrec] at h; cases h
        | some p =>
          rw [hrec, Option.map_some'] at h
          cases h
          intro x hx
          rcases List.mem_cons.mp hx with hx | hx
          · rw [hx]; exact hn
          · exact ih hrec x hx

theorem scanThroughSub_no_newline (term : Str) :
    ∀ {s g r : Str}, scanThroughSub term s = some (g, r) → ∀ x ∈ g, x ≠ '\n' := by
  intro s
  induction s with
  | nil => intro g r h; simp [scanThroughSub] at h
  | cons c t ih =>
    intro g r h
    by_cases hp : term.isPrefixOf (c :: t) = true
    · rw [show scanThroughSub term (c :: t) =
          (if term.isPrefixOf (c :: t) then some ([], (c :: t).drop term.length)
           else if c = '\n' then none
           else (scanThroughSub term t).map (fun p => (c :: p.1, p.2))) from rfl,
        if_pos hp] at h
      cases h
      intro x hx
      simp at hx
    · rw [show scanThroughSub term (c :: t) =
          (if term.isPrefixOf (c :: t) then some ([], (c :: t).drop term.length)
           else if c = '\n' then none
           else (scanThroughSub term t).map (fun p => (c :: p.1, p.2))) from rfl,
        if_neg hp] at h
      by_cases hn : c = '\n'
      · rw [if_pos hn] at h
        cases h
      · rw [if_neg hn] at h
        cases hrec : scanThroughSub term t with
        | none => rw [hrec] at h; cases h
        | some p =>
          rw [hrec, Option.map_some'] at h
          cases h
          intro x hx
          rcases List.mem_cons.mp hx with hx | hx
          · rw [hx]; exact hn
          · exact ih hrec x hx

theorem takeNum_digits {s : Str} {p : Str × Str} (h : takeNum s = some p) :
    ∀ x ∈ p.1, isDigitDot x = true := by
  unfold takeNum at h
  by_cases he : (s.takeWhile isDigitDot).isEmpty = true
  · rw [if_pos he] at h
    cases h
  · rw [if_neg he] at h
    cases h
    intro x hx
    exact List.mem_takeWhile_imp hx

/-- No character of a matched cue span is a newline: every literal piece of
the regex is newline-free, the numeric groups draw from [0-9.], and the two
lazy gaps refuse to cross a newline. -/
theorem matchCueAt_no_newline {s : Str} {p : CueMatch × Str}
    (h : matchCueAt s = some p) : '\n' ∉ p.1.span := by
  unfold matchCueAt at h
  cases h1 : expectLit cueLit1 s with
  | none => rw [h1] at h; simp at h
  | some s1 =>
    rw [h1] at h
    simp only [Option.bind] at h
    cases h2 : takeNum s1 with
    | none => rw [h2] at h; simp at h
    | some g1s2 =>
      rw [h2] at h
      simp only [Option.bind] at h
      cases h3 : expectLit cueLit2 g1s2.2 with
      | none => rw [h3] at h; simp at h
      | some s3 =>
        rw [h3] at h
        simp only [Option.bind] at h
        cases h4 : takeNum s3 with
        | none => rw [h4] at h; simp at h
        | some g2s4 =>
          rw [h4] at h
          simp only [Option.bind] at h
          cases h5 : expectLit ['"'] g2s4.2 with
          | none => rw [h5] at h; simp at h
          | some s5 =>
            rw [h5] at h
            simp only [Option.bind] at h
            cases h6 : scanThroughChar '>' s5 with
            | none => rw [h6] at h; simp at h
            | some gaps6 =>
              rw [h6] at h
              simp only [Option.bind] at h
              cases h7 : scanThroughSub cueLit3 gaps6.2 with
              | none => rw [h7] at h; simp at h
              | some pr =>
                rw [h7] at h
                simp only [Option.bind, Option.some.injEq] at h
                subst h
                intro hmem
                simp only [List.mem_append, List.mem_cons] at hmem
                rcases hmem with ((((hm | hm) | hm) | hm) | hm | hm | hm | hm | hm)
                · revert hm; decide
                · exact absurd (takeNum_digits h2 _ hm) (by decide)
                · revert hm; decide
                · exact absurd (takeNum_digits h4 _ hm) (by decide)
                · exact absurd hm (by decide)
                · exact scanThroughChar_no_newline '>' h6 _ hm rfl
                · exact absurd hm (by decide)
                · exact scanThroughSub_no_newline cueLit3 h7 _ hm rfl
                · revert hm; decide

theorem findAllCuesF_no_newline :
    ∀ (f : Nat) (s : Str) (c : CueMatch), c ∈ findAllCuesF f s → '\n' ∉ c.span := by
  intro f
  induction f with
  | zero => intro s c hc; simp [findAllCuesF] at hc
  | succ f ih =>
    intro s c hc
    cases s with
    | nil => simp [findAllCuesF] at hc
    | cons c0 t =>
      unfold findAllCuesF at hc
      cases hm : matchCueAt (c0 :: t) with
      | some p =>
        rw [hm] at hc
        simp only [Option.elim] at hc
        rcases List.mem_cons.mp hc with hc | hc
        · subst hc
          exact matchCueAt_no_newline hm
        · exact ih _ _ hc
      | none =>
        rw [hm] at hc
        simp only [Option.elim] at hc
        exact ih _ _ hc

/-- C9 (confirmed): no cue whose element spans more than one line of the
caption body is ever matched — every matched span is newline-free — and a
body containing only such multi-line cues fails with NoTranscriptText even
though a well-formed (but multi-line) cue element is present in it. -/
theorem yt_c9_theorem :
    (∀ (s : Str) (c : CueMatch), c ∈ findAllCues s → '\n' ∉ c.span) ∧
    parseTranscriptXML "<text start=\"1\" dur=\"2\">a\nb</text>".toList =
      .error .noTranscriptTextErr := by
  refine ⟨?_, by decide⟩
  intro s c hc
  exact findAllCuesF_no_newline (s.length + 1) s c hc

/-- C9 witness: the single cue matched in a well-formed one-line body has a
newline-free span. -/
theorem yt_c9_witness :
    '\n' ∉ ("<text start=\"1\" dur=\"2\">x</text>".toList : Str) :=
  yt_c9_theorem.1 "<text start=\"1\" dur=\"2\">x</text>".toList
    ⟨"<text start=\"1\" dur=\"2\">x</text>".toList, "1".toList, "2".toList, "x".toList⟩
    (by decide)

/-! ### Claim C10 (word-wrap whitespace normalization) -/

theorem head?_append_left {l la : Str} (h : l ≠ []) : (l ++ la).head? = l.head? := by
  cases l with
  | nil => exact absurd rfl h
  | cons c t => simp

theorem getLast?_append_right {l la : Str} (h : la ≠ []) :
    (l ++ la).getLast? = la.getLast? := by
  rw [List.getLast?_append]
  obtain ⟨c, hc⟩ := Option.isSome_iff_exists.mp (List.getLast?_isSome.mpr h)
  rw [hc]
  rfl

theorem getLast?_cons_right {c : Char} {t : Str} (h : t ≠ []) :
    (c :: t).getLast? = t.getLast? := by
  have h2 : ([c] ++ t).getLast? = t.getLast? := getLast?_append_right h
  simpa using h2

theorem chain'_of_nonspace :
    ∀ {l : Str}, (∀ c ∈ l, isSpaceGo c = false) → List.Chain' noAdjacentSpace l := by
  intro l
  induction l with
  | nil => intro _; exact List.chain'_nil
  | cons a t ih =>
    intro h
    cases t with
    | nil => exact List.chain'_singleton a
    | cons b t2 =>
      refine List.chain'_cons.mpr ⟨?_, ih ?_⟩
      · intro hsp
        rw [h a (by simp)] at hsp
        exact Bool.false_ne_true hsp.1
      · intro c hc
        exact h c (List.mem_cons_of_mem a hc)

theorem wordOK_curOK {w : Str} (h : wordOK w) : curOK w := by
  obtain ⟨hne, hns⟩ := h
  refine ⟨hne, ?_, chain'_of_nonspace hns, ?_, ?_⟩
  · intro c hc hsp
    rw [hns c hc] at hsp
    exact absurd hsp Bool.false_ne_true
  · intro c hc
    exact hns c (List.mem_of_mem_head? (by rw [hc]; exact Option.mem_some_iff.mpr rfl))
  · intro c hc
    exact hns c (List.mem_of_mem_getLast? (by rw [hc]; exact Option.mem_some_iff.mpr rfl))

theorem curOK_lineOK {l : Str} (h : curOK l) : lineOK l := by
  obtain ⟨h1, h2, h3, h4, h5⟩ := h
  exact ⟨h1, fun c hc hsp => Or.inl (h2 c hc hsp), h3, h4, h5⟩

theorem curOK_extend {cur w : Str} (hc : curOK cur) (hw : wordOK w) :
    curOK (cur ++ ' ' :: w) := by
  obtain ⟨hc1, hc2, hc3, hc4, hc5⟩ := hc
  obtain ⟨hw1, hw2⟩ := hw
  refine ⟨by simp, ?_, ?_, ?_, ?_⟩
  · intro c hcm hsp
    rcases List.mem_append.mp hcm with hm | hm
    · exact hc2 c hm hsp
    · rcases List.mem_cons.mp hm with hm | hm
      · exact hm
      · rw [hw2 c hm] at hsp
        exact absurd hsp Bool.false_ne_true
  · refine List.chain'_append.mpr ⟨hc3, ?_, ?_⟩
    · cases w with
      | nil => exact absurd rfl hw1
      | cons d t =>
        refine List.chain'_cons.mpr ⟨?_, chain'_of_nonspace ?_⟩
        · intro hsp
          rw [hw2 d (by simp)] at hsp
          exact Bool.false_ne_true hsp.2
        · intro x hx
          exact hw2 x hx
    · intro x hx y hy
      intro hsp
      have hx2 : cur.getLast? = some x := Option.mem_def.mp hx
      rw [hc5 x hx2] at hsp
      exact Bool.false_ne_true hsp.1
  · intro c hcm
    rw [head?_append_left hc1] at hcm
    exact hc4 c hcm
  · intro c hcm
    rw [getLast?_append_right (by simp : (' ' :: w) ≠ []), getLast?_cons_right hw1] at hcm
    exact hw2 c (List.mem_of_mem_getLast? (by rw [hcm]; exact Option.mem_some_iff.mpr rfl))

theorem lineOK_emit {cur rest : Str} (hc : curOK cur) (hr : lineOK rest) :
    lineOK (cur ++ '\n' :: rest) := by
  obtain ⟨hc1, hc2, hc3, hc4, hc5⟩ := hc
  obtain ⟨hr1, hr2, hr3, hr4, hr5⟩ := hr
  refine ⟨by simp, ?_, ?_, ?_, ?_⟩
  · intro c hcm hsp
    rcases List.mem_append.mp hcm with hm | hm
    · exact Or.inl (hc2 c hm hsp)
    · rcases List.mem_cons.mp hm with hm | hm
      · exact Or.inr hm
      · exact hr2 c hm hsp
  · refine List.chain'_append.mpr ⟨hc3, ?_, ?_⟩
    · cases hrest : rest with
      | nil => exact absurd hrest hr1
      | cons d t =>
        refine List.chain'_cons.mpr ⟨?_, ?_⟩
        · intro hsp
          have hd : isSpaceGo d = false := hr4 d (by rw [hrest]; rfl)
          rw [hd] at hsp
          exact Bool.false_ne_true hsp.2
        · rw [← hrest]
          exact hr3
    · intro x hx y hy
      intro hsp
      have hx2 : cur.getLast? = some x := Option.mem_def.mp hx
      rw [hc5 x hx2] at hsp
      exact Bool.false_ne_true hsp.1
  · intro c hcm
    rw [head?_append_left hc1] at hcm
    exact hc4 c hcm
  · intro c hcm
    rw [getLast?_append_right (by simp : ('\n' :: rest) ≠ []), getLast?_cons_right hr1] at hcm
    exact hr5 c hcm

theorem wrapLoop_lineOK (n : Int) :
    ∀ (ws : List Str) (cur : Str), curOK cur → (∀ w ∈ ws, wordOK w) →
      lineOK (wrapLoop n cur ws) := by
  intro ws
  induction ws with
  | nil =>
    intro cur hc _
    exact curOK_lineOK hc
  | cons w ws ih =>
    intro cur hc hws
    simp only [wrapLoop]
    split
    · exact lineOK_emit hc
        (ih w (wordOK_curOK (hws w (by simp))) (fun x hx => hws x (by simp [hx])))
    · exact ih (cur ++ ' ' :: w) (curOK_extend hc (hws w (by simp)))
        (fun x hx => hws x (by simp [hx]))

theorem goFieldsF_all_space :
    ∀ (f : Nat) (s : Str), s.all isSpaceGo = true → goFieldsF f s = [] := by
  intro f
  induction f with
  | zero => intro s _; rfl
  | succ f ih =>
    intro s hall
    cases s with
    | nil => rfl
    | cons c t =>
      rw [List.all_cons, Bool.and_eq_true] at hall
      simp only [goFieldsF]
      rw [if_pos hall.1]
      exact ih t hall.2

theorem goFieldsF_wordOK :
    ∀ (f : Nat) (s : Str) (w : Str), w ∈ goFieldsF f s → wordOK w := by
  intro f
  induction f with
  | zero => intro s w hw; simp [goFieldsF] at hw
  | succ f ih =>
    intro s w hw
    cases s with
    | nil => simp [goFieldsF] at hw
    | cons c t =>
      simp only [goFieldsF] at hw
      by_cases hc : isSpaceGo c = true
      · rw [if_pos hc] at hw
        exact ih t w hw
      · rw [if_neg hc] at hw
        rcases List.mem_cons.mp hw with hw | hw
        · subst hw
          refine ⟨by simp, ?_⟩
          intro x hx
          rcases List.mem_cons.mp hx with hx | hx
          · rw [hx]
            exact Bool.not_eq_true _ ▸ Bool.of_not_eq_true hc
          · have := List.mem_takeWhile_imp hx
            rwa [Bool.not_eq_true'] at this
        · exact ih _ w hw

/-- C10 (confirmed): for every input text and positive line length, the
readable formatter's word wrap normalizes whitespace: a whitespace-only text
(tabs, newlines included) produces the empty string, every whitespace
character of the output is a single space or a line break, no two whitespace
characters are adjacent, and the output starts and ends with non-whitespace
(leading and trailing whitespace of the paragraph is removed). -/
theorem yt_c10_theorem :
    ∀ (t : Str) (n : Int), 0 < n →
      (t.all isSpaceGo = true → wrapText t n = []) ∧
      (∀ c ∈ wrapText t n, isSpaceGo c = true → c = ' ' ∨ c = '\n') ∧
      List.Chain' noAdjacentSpace (wrapText t n) ∧
      (∀ c, (wrapText t n).head? = some c → isSpaceGo c = false) ∧
      (∀ c, (wrapText t n).getLast? = some c → isSpaceGo c = false) := by
  intro t n hn
  have hle : ¬(n ≤ 0) := by omega
  have hout : wrapText t n =
      (match goFields t with
       | [] => ([] : Str)
       | w :: ws => wrapLoop n w ws) := by
    simp only [wrapText]
    rw [if_neg hle]
  cases hg : goFields t with
  | nil =>
    have hout2 : wrapText t n = [] := by rw [hout, hg]
    rw [hout2]
    exact ⟨fun _ => rfl, by simp, List.chain'_nil, by simp, by simp⟩
  | cons w ws =>
    have hout2 : wrapText t n = wrapLoop n w ws := by rw [hout, hg]
    have hwords : ∀ x ∈ w :: ws, wordOK x := by
      intro x hx
      rw [← hg] at hx
      exact goFieldsF_wordOK (t.length + 1) t x hx
    have hline : lineOK (wrapLoop n w ws) :=
      wrapLoop_lineOK n ws w (wordOK_curOK (hwords w (by simp)))
        (fun x hx => hwords x (by simp [hx]))
    obtain ⟨_, hl2, hl3, hl4, hl5⟩ := hline
    rw [hout2]
    refine ⟨?_, hl2, hl3, hl4, hl5⟩
    intro hall
    have hempty : goFields t = [] := goFieldsF_all_space (t.length + 1) t hall
    rw [hg] at hempty
    cases hempty

/-- C10 witness: a whitespace-only text wraps to the empty string. -/
theorem yt_c10_witness : wrapText " \t ".toList 80 = [] := by
  have h := yt_c10_theorem " \t ".toList 80 (by decide)
  exact h.1 (by decide)

/-! ### Claim C2 (video identifier extraction) -/

/-- C6 witness: a body with no cue match fails with NoTranscriptText, and a
body whose single cue has the unparsable start "1.2.3" fails with
ParseFailure. -/
theorem yt_c6_witness :
    parseTranscriptXML "hello".toList = .error .noTranscriptTextErr ∧
    parseTranscriptXML "<text start=\"1.2.3\" dur=\"1\">x</text>".toList =
      .error .parseFailureErr := by
  have h1 := yt_c6_theorem.1 "hello".toList (by decide)
  have h2 := yt_c6_theorem.2.1 "<text start=\"1.2.3\" dur=\"1\">x</text>".toList (by decide)
    (by decide)
  exact ⟨h1.1, h2.1⟩

end YT
